import Mathlib

/-!
Verification development for the implodesc repository.

The frontend utility functions (`slugify` from the dashboard utilities and
`getTypicalCompany` from the supply-chain visualization component) are embedded
directly from the TypeScript source.  The analysis orchestration engine
(session state machine, credential resolver, provider selection, response
normalizer and mock generator) is specified in the design document but its
backend implementation is not part of the source tree; those components are
modelled from the specification text, as marked on each definition.
-/

namespace Implodesc

/-! ## Character classes for the dashboard `slugify` regexes

`slugify` in `frontend/src/app/dashboard` utilities is
`text.toLowerCase().replace(/[^\w\s-]/g, '').replace(/[\s_-]+/g, '-').replace(/^-+|-+$/g, '')`.
Strings are modelled as `List Char`; each regex pass is modelled as a list
transformation.  The character classes are the ASCII word class `\w`
(letters, digits, underscore) and the whitespace class `\s`; `toLowerCase` is
modelled per character by `Char.toLower` (the basic-latin case mapping).
-/

/-- The regex word class: letters, digits and the underscore (codepoint 95). -/
def jsWordChar (c : Char) : Bool :=
  decide ((65 ≤ c.toNat ∧ c.toNat ≤ 90) ∨ (97 ≤ c.toNat ∧ c.toNat ≤ 122) ∨
    (48 ≤ c.toNat ∧ c.toNat ≤ 57) ∨ c.toNat = 95)

/-- The regex whitespace class: tab through carriage return, space, and the
Unicode space separators matched by the ECMAScript whitespace class. -/
def jsSpaceChar (c : Char) : Bool :=
  decide (c.toNat = 9 ∨ c.toNat = 10 ∨ c.toNat = 11 ∨ c.toNat = 12 ∨ c.toNat = 13 ∨
    c.toNat = 32 ∨ c.toNat = 160 ∨ c.toNat = 5760 ∨
    (8192 ≤ c.toNat ∧ c.toNat ≤ 8202) ∨ c.toNat = 8232 ∨ c.toNat = 8233 ∨
    c.toNat = 8239 ∨ c.toNat = 8287 ∨ c.toNat = 12288 ∨ c.toNat = 65279)

/-- Characters kept by the first replace pass, which deletes every character
outside the class given by word characters, whitespace and the hyphen. -/
def keepChar (c : Char) : Bool := jsWordChar c || jsSpaceChar c || decide (c.toNat = 45)

/-- Characters matched by the second replace pass: whitespace, underscore and
hyphen; each maximal run of these is replaced by a single hyphen. -/
def sepChar (c : Char) : Bool :=
  jsSpaceChar c || decide (c.toNat = 95) || decide (c.toNat = 45)

/-- One pass over the text replacing each maximal run of separator characters
by a single hyphen.  The boolean records whether the previous character was
inside a separator run (whose hyphen has already been emitted). -/
def collapseSeps : Bool → List Char → List Char
  | _, [] => []
  | inRun, c :: cs =>
    if sepChar c then
      if inRun then collapseSeps true cs else '-' :: collapseSeps true cs
    else c :: collapseSeps false cs

/-- Removal of the maximal trailing run of hyphens, the second alternative of
the final replace pass. -/
def dropTrailingHyphens : List Char → List Char
  | [] => []
  | c :: cs =>
    match dropTrailingHyphens cs with
    | [] => if c.toNat = 45 then [] else [c]
    | ds => c :: ds

/-- The `slugify` pipeline on character lists: lowercase, delete characters
outside word/whitespace/hyphen, collapse separator runs to single hyphens,
then strip the leading and the trailing hyphen run. -/
def slugChars (l : List Char) : List Char :=
  dropTrailingHyphens
    ((collapseSeps false ((l.map Char.toLower).filter keepChar)).dropWhile
      (fun c => decide (c.toNat = 45)))

/-- The dashboard utility `slugify`, embedded from
`frontend/src/app/dashboard` utilities lines 191-197. -/
def slugify (s : String) : String := String.mk (slugChars s.data)

/-! ## Shape of slug strings -/

/-- Lowercase letters and digits: the characters a slug may contain besides
separating hyphens. -/
def lowerAlnum (c : Char) : Bool :=
  decide ((97 ≤ c.toNat ∧ c.toNat ≤ 122) ∨ (48 ≤ c.toNat ∧ c.toNat ≤ 57))

/-- Checker for the part of a slug after its first character: every hyphen is
immediately followed by a lowercase alphanumeric character and every other
character is lowercase alphanumeric.  Rejects trailing hyphens and runs of
hyphens. -/
def slugTail : List Char → Bool
  | [] => true
  | c :: cs =>
    if c.toNat = 45 then
      match cs with
      | [] => false
      | d :: ds => lowerAlnum d && slugTail ds
    else lowerAlnum c && slugTail cs

/-- A well-formed slug: empty, or a lowercase alphanumeric character followed
by lowercase alphanumeric characters separated by single hyphens, with no
leading or trailing hyphen. -/
def slugOk : List Char → Bool
  | [] => true
  | c :: cs => lowerAlnum c && slugTail cs

/-- Relaxed checker used for the intermediate stage before trimming: all
characters are lowercase alphanumeric or hyphens and no two hyphens are
adjacent; leading and trailing hyphens are allowed.  The boolean state records
whether the previous character was a hyphen. -/
def altOk : Bool → List Char → Bool
  | _, [] => true
  | afterHy, c :: cs =>
    if c.toNat = 45 then !afterHy && altOk true cs
    else lowerAlnum c && altOk false cs

/-! ## Character-level lemmas -/

theorem toNat_ofNat_valid (n : Nat) (h : n < 0xd800) : (Char.ofNat n).toNat = n := by
  have hv : Nat.isValidChar n := Or.inl h
  rw [Char.ofNat, dif_pos hv]
  simp [Char.ofNatAux, Char.toNat, UInt32.toNat]

theorem toLower_not_upper (c : Char) :
    ¬(65 ≤ (Char.toLower c).toNat ∧ (Char.toLower c).toNat ≤ 90) := by
  simp only [Char.toLower]
  by_cases h : c.toNat ≥ 65 ∧ c.toNat ≤ 90
  · rw [if_pos h]
    have : (Char.ofNat (c.toNat + 32)).toNat = c.toNat + 32 :=
      toNat_ofNat_valid _ (by omega)
    omega
  · rw [if_neg h]
    omega

theorem toLower_fix (c : Char) (h : ¬(65 ≤ c.toNat ∧ c.toNat ≤ 90)) : Char.toLower c = c := by
  simp only [Char.toLower]
  rw [if_neg (by omega)]

theorem char_eq_hyphen_of_toNat (c : Char) (h : c.toNat = 45) : c = '-' := by
  apply Char.ext
  exact UInt32.toNat.inj (show c.val.toNat = ('-' : Char).val.toNat from h)

/-- Characters surviving the lowercasing and filtering passes: kept by the
filter and not an uppercase basic-latin letter. -/
def goodChar (c : Char) : Bool :=
  keepChar c && !(decide (65 ≤ c.toNat ∧ c.toNat ≤ 90))

theorem prepared_good (l : List Char) :
    ∀ c ∈ (l.map Char.toLower).filter keepChar, goodChar c = true := by
  intro c hc
  rw [List.mem_filter] at hc
  obtain ⟨hm, hk⟩ := hc
  rw [List.mem_map] at hm
  obtain ⟨a, -, rfl⟩ := hm
  simp only [goodChar, hk, Bool.true_and, Bool.not_eq_true', decide_eq_false_iff_not]
  exact toLower_not_upper a

theorem good_notSep_lower (c : Char) (hg : goodChar c = true) (hs : sepChar c = false) :
    lowerAlnum c = true := by
  simp only [goodChar, keepChar, jsWordChar, jsSpaceChar, sepChar, lowerAlnum,
    Bool.and_eq_true, Bool.or_eq_true, decide_eq_true_eq, Bool.not_eq_true',
    decide_eq_false_iff_not, Bool.or_eq_false_iff, decide_eq_false_iff_not] at hg hs ⊢
  omega

theorem lowerAlnum_not_sep (c : Char) (h : lowerAlnum c = true) : sepChar c = false := by
  simp only [lowerAlnum, sepChar, jsSpaceChar, Bool.or_eq_false_iff,
    decide_eq_false_iff_not, decide_eq_true_eq] at h ⊢
  omega

theorem lowerAlnum_ne_hyphen (c : Char) (h : lowerAlnum c = true) : ¬(c.toNat = 45) := by
  simp only [lowerAlnum, decide_eq_true_eq] at h
  omega

theorem lowerAlnum_keep (c : Char) (h : lowerAlnum c = true) : keepChar c = true := by
  simp only [lowerAlnum, keepChar, jsWordChar, jsSpaceChar, Bool.or_eq_true,
    decide_eq_true_eq] at h ⊢
  omega

theorem lowerAlnum_toLower_fix (c : Char) (h : lowerAlnum c = true) : Char.toLower c = c := by
  apply toLower_fix
  simp only [lowerAlnum, decide_eq_true_eq] at h
  omega

theorem hyphen_facts : sepChar '-' = true ∧ keepChar '-' = true ∧ Char.toLower '-' = '-' := by
  refine ⟨by decide, by decide, toLower_fix _ (by decide)⟩

/-! ## The collapse pass produces the relaxed alternation shape -/

theorem altOk_true_imp_false (l : List Char) (h : altOk true l = true) :
    altOk false l = true := by
  cases l with
  | nil => rfl
  | cons c cs =>
    by_cases h45 : c.toNat = 45
    · simp [altOk, h45] at h
    · simpa [altOk, h45] using h

theorem altOk_collapseSeps (l : List Char) (hg : ∀ c ∈ l, goodChar c = true) :
    ∀ b, altOk b (collapseSeps b l) = true := by
  induction l with
  | nil => intro b; simp [collapseSeps, altOk]
  | cons c cs ih =>
    have hgc : goodChar c = true := hg c (List.mem_cons_self c cs)
    have hgcs : ∀ x ∈ cs, goodChar x = true := fun x hx => hg x (List.mem_cons_of_mem _ hx)
    intro b
    by_cases hs : sepChar c = true
    · cases b with
      | false =>
        simp only [collapseSeps, hs, if_true, if_false, Bool.false_eq_true]
        have : ('-' : Char).toNat = 45 := by decide
        simp [altOk, this, ih hgcs true]
      | true =>
        simp only [collapseSeps, hs, if_true]
        exact ih hgcs true
    · have hs' : sepChar c = false := by simpa using hs
      have hl : lowerAlnum c = true := good_notSep_lower c hgc hs'
      have h45 : ¬(c.toNat = 45) := lowerAlnum_ne_hyphen c hl
      simp only [collapseSeps, hs', Bool.false_eq_true, if_false]
      simp [altOk, h45, hl, ih hgcs false]

theorem altOk_dropWhile (l : List Char) (h : altOk false l = true) :
    altOk true (l.dropWhile (fun c => decide (c.toNat = 45))) = true := by
  induction l with
  | nil => rfl
  | cons c cs ih =>
    by_cases h45 : c.toNat = 45
    · have hcs : altOk true cs = true := by simpa [altOk, h45] using h
      have : altOk false cs = true := altOk_true_imp_false cs hcs
      simpa [List.dropWhile, h45] using ih this
    · have : altOk false (c :: cs) = altOk true (c :: cs) := by
        simp [altOk, h45]
      rw [this] at h
      simpa [List.dropWhile, h45] using h

/-! ## Trimming the trailing hyphen run yields a well-formed slug -/

theorem dth_shape (l : List Char) :
    (altOk false l = true → slugTail (dropTrailingHyphens l) = true) ∧
    (altOk true l = true → slugOk (dropTrailingHyphens l) = true) := by
  induction l with
  | nil => exact ⟨fun _ => rfl, fun _ => rfl⟩
  | cons c cs ih =>
    obtain ⟨ih1, ih2⟩ := ih
    by_cases h45 : c.toNat = 45
    · constructor
      · intro h
        have hcs : altOk true cs = true := by simpa [altOk, h45] using h
        have hok : slugOk (dropTrailingHyphens cs) = true := ih2 hcs
        cases hd : dropTrailingHyphens cs with
        | nil => simp [dropTrailingHyphens, hd, h45, slugTail]
        | cons d ds =>
          rw [hd] at hok
          have : lowerAlnum d = true ∧ slugTail ds = true := by
            simpa [slugOk, Bool.and_eq_true] using hok
          simp [dropTrailingHyphens, hd, slugTail, h45, this.1, this.2]
      · intro h
        simp [altOk, h45] at h
    · have hsplit : altOk false (c :: cs) = true → lowerAlnum c = true ∧ altOk false cs = true := by
        intro h; simpa [altOk, h45, Bool.and_eq_true] using h
      have hsplit' : altOk true (c :: cs) = true → lowerAlnum c = true ∧ altOk false cs = true := by
        intro h; simpa [altOk, h45, Bool.and_eq_true] using h
      have main : lowerAlnum c = true → altOk false cs = true →
          slugOk (dropTrailingHyphens (c :: cs)) = true := by
        intro hl hcs
        have htl : slugTail (dropTrailingHyphens cs) = true := ih1 hcs
        cases hd : dropTrailingHyphens cs with
        | nil => simp [dropTrailingHyphens, hd, h45, slugOk, slugTail, hl]
        | cons d ds =>
          rw [hd] at htl
          simp [dropTrailingHyphens, hd, slugOk, slugTail, h45, hl, htl]
      have main' : slugOk (dropTrailingHyphens (c :: cs)) = true →
          slugTail (dropTrailingHyphens (c :: cs)) = true := by
        intro h
        cases hd : dropTrailingHyphens (c :: cs) with
        | nil => rfl
        | cons d ds =>
          rw [hd] at h
          have : lowerAlnum d = true ∧ slugTail ds = true := by
            simpa [slugOk, Bool.and_eq_true] using h
          have hd45 : ¬(d.toNat = 45) := lowerAlnum_ne_hyphen d this.1
          unfold slugTail
          rw [if_neg hd45]
          simp [this.1, this.2]
      constructor
      · intro h
        obtain ⟨hl, hcs⟩ := hsplit h
        exact main' (main hl hcs)
      · intro h
        obtain ⟨hl, hcs⟩ := hsplit' h
        exact main hl hcs

theorem slugOk_slugChars (l : List Char) : slugOk (slugChars l) = true := by
  have hg := prepared_good l
  have h1 : altOk false (collapseSeps false ((l.map Char.toLower).filter keepChar)) = true :=
    altOk_collapseSeps _ hg false
  have h2 := altOk_dropWhile _ h1
  exact (dth_shape _).2 h2

/-! ## Well-formed slugs are fixed points of the pipeline -/

theorem slug_chars_class (l : List Char) :
    (slugTail l = true → ∀ c ∈ l, lowerAlnum c = true ∨ c.toNat = 45) ∧
    (slugOk l = true → ∀ c ∈ l, lowerAlnum c = true ∨ c.toNat = 45) := by
  induction l with
  | nil => exact ⟨fun _ c hc => absurd hc (List.not_mem_nil c), fun _ c hc => absurd hc (List.not_mem_nil c)⟩
  | cons c cs ih =>
    obtain ⟨ih1, ih2⟩ := ih
    by_cases h45 : c.toNat = 45
    · constructor
      · intro h x hx
        cases cs with
        | nil => simp [slugTail, h45] at h
        | cons d ds =>
          have hdd : lowerAlnum d = true ∧ slugTail ds = true := by
            simpa [slugTail, h45, Bool.and_eq_true] using h
          have hq : slugTail (d :: ds) = true := by
            have := lowerAlnum_ne_hyphen d hdd.1
            unfold slugTail
            rw [if_neg this]
            simp [hdd.1, hdd.2]
          rcases List.mem_cons.mp hx with rfl | hx'
          · exact Or.inr h45
          · exact ih1 hq x hx'
      · intro h
        have : lowerAlnum c = true ∧ slugTail cs = true := by
          simpa [slugOk, Bool.and_eq_true] using h
        exact absurd (lowerAlnum_ne_hyphen c this.1 h45) (fun hh => hh)
    · have hstep : slugTail (c :: cs) = true → lowerAlnum c = true ∧ slugTail cs = true := by
        intro h
        unfold slugTail at h
        rw [if_neg h45] at h
        simpa [Bool.and_eq_true] using h
      constructor
      · intro h x hx
        obtain ⟨hl, hcs⟩ := hstep h
        rcases List.mem_cons.mp hx with rfl | hx'
        · exact Or.inl hl
        · exact ih1 hcs x hx'
      · intro h x hx
        have : lowerAlnum c = true ∧ slugTail cs = true := by
          simpa [slugOk, Bool.and_eq_true] using h
        rcases List.mem_cons.mp hx with rfl | hx'
        · exact Or.inl this.1
        · exact ih1 this.2 x hx'

theorem slug_map_filter_fix (l : List Char)
    (hc : ∀ c ∈ l, lowerAlnum c = true ∨ c.toNat = 45) :
    (l.map Char.toLower).filter keepChar = l := by
  have hmap : l.map Char.toLower = l := by
    have heach : ∀ a ∈ l, Char.toLower a = id a := by
      intro a ha
      rcases hc a ha with h | h
      · exact lowerAlnum_toLower_fix a h
      · rw [char_eq_hyphen_of_toNat a h]; exact hyphen_facts.2.2
    rw [List.map_congr_left heach, List.map_id]
  rw [hmap]
  apply List.filter_eq_self.mpr
  intro a ha
  rcases hc a ha with h | h
  · exact lowerAlnum_keep a h
  · rw [char_eq_hyphen_of_toNat a h]; exact hyphen_facts.2.1

theorem collapse_fix (l : List Char) :
    (slugTail l = true → collapseSeps false l = l) ∧
    (slugOk l = true → collapseSeps true l = l ∧ collapseSeps false l = l) := by
  induction l with
  | nil => exact ⟨fun _ => rfl, fun _ => ⟨rfl, rfl⟩⟩
  | cons c cs ih =>
    obtain ⟨ih1, ih2⟩ := ih
    by_cases h45 : c.toNat = 45
    · constructor
      · intro h
        cases cs with
        | nil => simp [slugTail, h45] at h
        | cons d ds =>
          have hdd : lowerAlnum d = true ∧ slugTail ds = true := by
            simpa [slugTail, h45, Bool.and_eq_true] using h
          have hq : slugOk (d :: ds) = true := by
            simp [slugOk, hdd.1, hdd.2]
          have hsep : sepChar c = true := by
            simp [sepChar, h45]
          have hcq := (ih2 hq).1
          unfold collapseSeps
          rw [if_pos hsep]
          simp only [Bool.false_eq_true, if_false]
          rw [char_eq_hyphen_of_toNat c h45, hcq]
      · intro h
        have : lowerAlnum c = true ∧ slugTail cs = true := by
          simpa [slugOk, Bool.and_eq_true] using h
        exact absurd h45 (lowerAlnum_ne_hyphen c this.1)
    · have hstep : slugTail (c :: cs) = true → lowerAlnum c = true ∧ slugTail cs = true := by
        intro h
        unfold slugTail at h
        rw [if_neg h45] at h
        simpa [Bool.and_eq_true] using h
      have run : lowerAlnum c = true → slugTail cs = true →
          collapseSeps false (c :: cs) = c :: cs ∧ collapseSeps true (c :: cs) = c :: cs := by
        intro hl hcs
        have hsep : sepChar c = false := lowerAlnum_not_sep c hl
        constructor <;>
          (unfold collapseSeps; rw [if_neg (by simp [hsep])]; rw [ih1 hcs])
      constructor
      · intro h
        obtain ⟨hl, hcs⟩ := hstep h
        exact (run hl hcs).1
      · intro h
        have : lowerAlnum c = true ∧ slugTail cs = true := by
          simpa [slugOk, Bool.and_eq_true] using h
        exact ⟨(run this.1 this.2).2, (run this.1 this.2).1⟩

theorem dropWhile_fix (l : List Char) (h : slugOk l = true) :
    l.dropWhile (fun c => decide (c.toNat = 45)) = l := by
  cases l with
  | nil => rfl
  | cons c cs =>
    have : lowerAlnum c = true ∧ slugTail cs = true := by
      simpa [slugOk, Bool.and_eq_true] using h
    have h45 := lowerAlnum_ne_hyphen c this.1
    simp [List.dropWhile, h45]

theorem dth_fix (l : List Char) :
    (slugTail l = true → dropTrailingHyphens l = l) ∧
    (slugOk l = true → dropTrailingHyphens l = l) := by
  induction l with
  | nil => exact ⟨fun _ => rfl, fun _ => rfl⟩
  | cons c cs ih =>
    obtain ⟨ih1, ih2⟩ := ih
    by_cases h45 : c.toNat = 45
    · constructor
      · intro h
        cases cs with
        | nil => simp [slugTail, h45] at h
        | cons d ds =>
          have hdd : lowerAlnum d = true ∧ slugTail ds = true := by
            simpa [slugTail, h45, Bool.and_eq_true] using h
          have hq : slugOk (d :: ds) = true := by
            simp [slugOk, hdd.1, hdd.2]
          have := ih2 hq
          unfold dropTrailingHyphens
          rw [this]
      · intro h
        have : lowerAlnum c = true ∧ slugTail cs = true := by
          simpa [slugOk, Bool.and_eq_true] using h
        exact absurd h45 (lowerAlnum_ne_hyphen c this.1)
    · have run : slugTail cs = true → dropTrailingHyphens (c :: cs) = c :: cs := by
        intro hcs
        have hfix := ih1 hcs
        unfold dropTrailingHyphens
        rw [hfix]
        cases cs with
        | nil => simp [h45]
        | cons d ds => rfl
      constructor
      · intro h
        unfold slugTail at h
        rw [if_neg h45] at h
        have hh : lowerAlnum c = true ∧ slugTail cs = true := by
          simpa [Bool.and_eq_true] using h
        exact run hh.2
      · intro h
        have : lowerAlnum c = true ∧ slugTail cs = true := by
          simpa [slugOk, Bool.and_eq_true] using h
        exact run this.2

theorem slug_fix (l : List Char) (h : slugOk l = true) : slugChars l = l := by
  have hc := (slug_chars_class l).2 h
  unfold slugChars
  rw [slug_map_filter_fix l hc, ((collapse_fix l).2 h).2, dropWhile_fix l h, (dth_fix l).2 h]

/-- C10: `slugify` is idempotent — for every input string, applying it twice
equals applying it once — and its output is a well-formed slug: only
lowercase alphanumeric characters separated by single hyphens, with no
leading or trailing hyphen. -/
theorem slugify_idempotent_and_slug_shape (s : String) :
    slugify (slugify s) = slugify s ∧ slugOk (slugify s).data = true := by
  have h1 : slugOk (slugChars s.data) = true := slugOk_slugChars s.data
  unfold slugify
  exact ⟨congrArg String.mk (slug_fix _ h1), h1⟩

/-! ## getTypicalCompany from the supply-chain visualization component

Embedded from `frontend/src/components/SupplyChainVisualization.tsx`
lines 80-121.  The component holds one keyword table per step type
(`material`, `process`, `transport`), each ending in a `default` entry;
the function lowercases the step name, returns the value of the first table
key contained in it, falls back to the table's `default` value, and returns
a fixed partner string for any other step type.
-/

/-- True when the second list occurs as a contiguous block at the start of
the first. -/
def startsWithChars : List Char → List Char → Bool
  | _, [] => true
  | [], _ :: _ => false
  | h :: hs, n :: ns => decide (h = n) && startsWithChars hs ns

/-- True when the second list occurs contiguously anywhere inside the first:
the model of the JavaScript string `includes` test. -/
def containsChars : List Char → List Char → Bool
  | [], need => need.isEmpty
  | h :: hs, need => startsWithChars (h :: hs) need || containsChars hs need

/-- Per-character lowercasing, the model of `toLowerCase` on the step name. -/
def lowerChars (l : List Char) : List Char := l.map Char.toLower

/-- The material keyword table, in the insertion order of the source object,
without its final `default` entry. -/
def materialEntries : List (String × String) :=
  [("cotton", "Cotton Growers Co-op"), ("steel", "ArcelorMittal"),
   ("aluminum", "Alcoa"), ("plastic", "Dow Chemical"),
   ("lithium", "Albemarle Corp"), ("oil", "ExxonMobil")]

/-- The process keyword table, in the insertion order of the source object,
without its final `default` entry. -/
def processEntries : List (String × String) :=
  [("cultivation", "AgriCorp Farms"), ("mining", "Global Mining Ltd"),
   ("refining", "ProcessTech Industries"), ("manufacturing", "Manufacturing Solutions"),
   ("assembly", "Assembly Partners"), ("spinning", "Textile Mills Inc"),
   ("weaving", "Fabric Works Ltd"), ("smelting", "Metal Processing Co")]

/-- The transport keyword table, in the insertion order of the source object,
without its final `default` entry. -/
def transportEntries : List (String × String) :=
  [("truck", "FreightLine Logistics"), ("ship", "Maersk Shipping"),
   ("air", "DHL Cargo"), ("rail", "Union Pacific")]

/-- The per-type tables of `getTypicalCompany` together with each table's
`default` value; `none` for a step type outside the table. -/
def companyTable (ty : String) : Option (List (String × String) × String) :=
  if ty = "material" then some (materialEntries, "Material Supplier Inc")
  else if ty = "process" then some (processEntries, "Processing Corp")
  else if ty = "transport" then some (transportEntries, "Transport Solutions")
  else none

/-- The value of the first table entry whose key is contained in the
lowercased name, iterating in insertion order exactly like the source's
entries loop. -/
def firstEntryMatch : List (String × String) → List Char → Option String
  | [], _ => none
  | (k, v) :: rest, lname =>
    if containsChars lname k.data then some v else firstEntryMatch rest lname

/-- `getTypicalCompany` embedded from SupplyChainVisualization.tsx lines
80-121.  The iteration runs over all entries of the type's object, the
`default` entry included, and afterwards falls back to the `default` value;
a type outside the table yields the fixed partner string. -/
def getTypicalCompany (ty name : String) : String :=
  match companyTable ty with
  | some (entries, dflt) =>
    match firstEntryMatch (entries ++ [("default", dflt)]) (lowerChars name.data) with
    | some v => v
    | none => dflt
  | none => "Supply Chain Partner"

/-- The lookup as described by the claim: the value mapped from the first
keyword of the type's table contained in the name, the type's default entry
when no keyword matches, the fixed partner string for a type outside the
table. -/
def claimTypicalCompany (ty name : String) : String :=
  match companyTable ty with
  | some (entries, dflt) =>
    match firstEntryMatch entries (lowerChars name.data) with
    | some v => v
    | none => dflt
  | none => "Supply Chain Partner"

theorem firstEntryMatch_append_default (es : List (String × String)) (d : String)
    (ln : List Char) :
    (match firstEntryMatch (es ++ [("default", d)]) ln with
      | some v => v
      | none => d) =
    (match firstEntryMatch es ln with
      | some v => v
      | none => d) := by
  induction es with
  | nil =>
    simp only [List.nil_append, firstEntryMatch]
    by_cases hc : containsChars ln ("default".data) = true
    · rw [if_pos hc]
    · rw [if_neg hc]
  | cons kv rest ih =>
    obtain ⟨k, v⟩ := kv
    simp only [List.cons_append, firstEntryMatch]
    by_cases hc : containsChars ln k.data = true
    · rw [if_pos hc, if_pos hc]
    · rw [if_neg hc, if_neg hc]
      exact ih

theorem firstEntryMatch_mem (es : List (String × String)) (ln : List Char) (v : String)
    (h : firstEntryMatch es ln = some v) : v ∈ es.map Prod.snd := by
  induction es with
  | nil => simp [firstEntryMatch] at h
  | cons kv rest ih =>
    obtain ⟨k, w⟩ := kv
    rw [firstEntryMatch] at h
    split at h
    · simp only [Option.some.injEq] at h
      simp [h]
    · simp [ih h]

theorem getTypicalCompany_eq_claim (ty name : String) :
    getTypicalCompany ty name = claimTypicalCompany ty name := by
  unfold getTypicalCompany claimTypicalCompany
  cases h : companyTable ty with
  | none => rfl
  | some p =>
    obtain ⟨entries, dflt⟩ := p
    exact firstEntryMatch_append_default entries dflt (lowerChars name.data)

theorem claim_length_aux (es : List (String × String)) (d : String) (ln : List Char)
    (hd : 0 < d.length) (hv : ∀ v ∈ es.map Prod.snd, 0 < v.length) :
    0 < (match firstEntryMatch es ln with | some v => v | none => d).length := by
  cases hm : firstEntryMatch es ln with
  | none => simpa using hd
  | some v => simpa using hv v (firstEntryMatch_mem _ _ _ hm)

theorem claimTypicalCompany_length (ty name : String) :
    0 < (claimTypicalCompany ty name).length := by
  unfold claimTypicalCompany companyTable
  by_cases h1 : ty = "material"
  · rw [if_pos h1]
    exact claim_length_aux _ _ _ (by decide) (by decide)
  · rw [if_neg h1]
    by_cases h2 : ty = "process"
    · rw [if_pos h2]
      exact claim_length_aux _ _ _ (by decide) (by decide)
    · rw [if_neg h2]
      by_cases h3 : ty = "transport"
      · rw [if_pos h3]
        exact claim_length_aux _ _ _ (by decide) (by decide)
      · rw [if_neg h3]
        show 0 < ("Supply Chain Partner" : String).length
        decide

/-- C9: for every step type and name, `getTypicalCompany` never fails and
returns a non-empty company string; on the three tabled types its result is
the value mapped from the first keyword of that type's table contained
case-insensitively in the name, or the type's default entry when no keyword
matches (the reading captured by `claimTypicalCompany`), and every type
outside the table yields the fixed partner string. -/
theorem getTypicalCompany_total_and_first_keyword (ty name : String) :
    0 < (getTypicalCompany ty name).length ∧
    getTypicalCompany ty name = claimTypicalCompany ty name ∧
    (ty ≠ "material" → ty ≠ "process" → ty ≠ "transport" →
      getTypicalCompany ty name = "Supply Chain Partner") := by
  refine ⟨?_, getTypicalCompany_eq_claim ty name, ?_⟩
  · rw [getTypicalCompany_eq_claim]
    exact claimTypicalCompany_length ty name
  · intro h1 h2 h3
    unfold getTypicalCompany companyTable
    rw [if_neg h1, if_neg h2, if_neg h3]

/-- Witness for C9 at concrete inputs: an untabled step type is mapped to the
fixed partner string and a material name yields a non-empty company. -/
theorem getTypicalCompany_total_and_first_keyword_witness :
    getTypicalCompany "company" "Acme" = "Supply Chain Partner" ∧
    0 < (getTypicalCompany "material" "Steel beam").length := by
  have h1 := getTypicalCompany_total_and_first_keyword "company" "Acme"
  have h2 := getTypicalCompany_total_and_first_keyword "material" "Steel beam"
  exact ⟨h1.2.2 (by decide) (by decide) (by decide), h2.1⟩

/-! ## The analysis orchestration engine

The backend package implementing the orchestration engine (session state
machine, credential resolver, provider selection, response normalizer, mock
generator) is not part of the source tree — only its frontend callers, the
design document and the development log are.  The definitions below are
therefore modelled from the specification, as marked on each one.
-/

/-- Modelled from the spec: the Query of §3 — item name (required,
non-empty), free-text description, quantity. -/
structure Query where
  itemName : String
  description : String
  quantity : Nat

/-- Modelled from the spec: a Material entry of the AnalysisResult (§3). -/
structure Material where
  name : String
  category : String
  sourceRegions : List String
  carbonIntensity : String

/-- Modelled from the spec: a Process entry of the AnalysisResult (§3). -/
structure ProcessStep where
  name : String
  category : String
  location : String
  energyDescription : String
  estimatedEmissions : String

/-- Modelled from the spec: a TransportLeg entry of the AnalysisResult (§3). -/
structure TransportLeg where
  origin : String
  destination : String
  mode : String
  distance : Nat
  estimatedEmissions : String

/-- Modelled from the spec: a Company entry of the AnalysisResult (§3). -/
structure Company where
  name : String
  role : String
  region : String

/-- Modelled from the spec: the EnvironmentalImpact record of the
AnalysisResult (§3). -/
structure EnvironmentalImpact where
  totalCarbonFootprint : Nat
  highestImpactStage : String
  improvementSuggestions : List String

/-- Modelled from the spec: the AnalysisResult of §3 — the four ordered
lists, the environmental impact and the free-text summary. -/
structure AnalysisResult where
  materials : List Material
  processes : List ProcessStep
  transportation : List TransportLeg
  companies : List Company
  environmentalImpact : EnvironmentalImpact
  summary : String

/-! ## Structural completeness

Structural completeness is observed through the serialized form a caller
sees: the encoding of a result lists one entry per documented top-level key,
and a result is structurally complete when every required key is present in
its encoding. -/

/-- One serialized top-level field of an analysis result. -/
inductive JsonField where
  | jMaterials (l : List Material)
  | jProcesses (l : List ProcessStep)
  | jTransportation (l : List TransportLeg)
  | jCompanies (l : List Company)
  | jImpact (e : EnvironmentalImpact)
  | jSummary (s : String)

/-- The six documented top-level keys of the analysis-result schema. -/
def requiredKeys : List String :=
  ["materials", "processes", "transportation", "companies", "environmental_impact", "summary"]

/-- The serialized form of an AnalysisResult as the caller observes it. -/
def encodeResult (r : AnalysisResult) : List (String × JsonField) :=
  [("materials", .jMaterials r.materials), ("processes", .jProcesses r.processes),
   ("transportation", .jTransportation r.transportation), ("companies", .jCompanies r.companies),
   ("environmental_impact", .jImpact r.environmentalImpact), ("summary", .jSummary r.summary)]

/-- A result is structurally complete when every required key is present in
its serialized form, an empty list or empty string being a value like any
other. -/
def structurallyComplete (r : AnalysisResult) : Prop :=
  ∀ k ∈ requiredKeys, (List.lookup k (encodeResult r)).isSome = true

/-! ## Credential resolver (spec §4.2) -/

/-- Modelled from the spec: the two supported providers, in the fixed
priority order OpenAI before Anthropic. -/
inductive Provider where
  | openai
  | anthropic
  deriving DecidableEq

/-- The fixed provider priority order (§4.2: first provider configured wins). -/
def providerOrder : List Provider := [.openai, .anthropic]

/-- Modelled from the spec: the two credential sources of §4.2 —
process-wide default configuration and per-session overrides. -/
structure Credentials where
  defaults : Provider → Option String
  overrides : Provider → Option String

/-- Modelled from the spec: credential resolution for one provider, the
session override taking precedence over the process-wide default. -/
def resolveCredential (c : Credentials) (p : Provider) : Option String :=
  match c.overrides p with
  | some s => some s
  | none => c.defaults p

/-- Modelled from the spec: a provider is usable iff a non-empty credential
string is resolvable for it. -/
def providerUsable (c : Credentials) (p : Provider) : Bool :=
  match resolveCredential c p with
  | some s => !(s == "")
  | none => false

/-- Modelled from the spec: the ordered usable-provider list of §4.2. -/
def usableProviders (c : Credentials) : List Provider :=
  providerOrder.filter (providerUsable c)

/-- Modelled from the spec: merging caller-supplied keys into the session's
per-session credential overrides (§4.1 setCredentials). -/
def mergeOverrides (old newKeys : Provider → Option String) : Provider → Option String :=
  fun p =>
    match newKeys p with
    | some s => some s
    | none => old p

/-- Modelled from the spec: the availability map returned by setCredentials —
which providers are now usable. -/
def servicesAvailable (c : Credentials) : Provider → Bool :=
  fun p => providerUsable c p

/-! ## Category inference and clarification questions (spec §4.6) -/

/-- Modelled from the spec: the inferred item category of the keyword rule
set shared by the clarification generator and the mock generator. -/
inductive ItemCategory where
  | textile
  | electronics
  | generic
  deriving DecidableEq

/-- The searchable text of a query: lowercased item name and description. -/
def queryText (q : Query) : List Char :=
  lowerChars ((q.itemName ++ " " ++ q.description).data)

/-- True when any of the keywords occurs in the text. -/
def containsAnyKeyword (text : List Char) (kws : List String) : Bool :=
  kws.any (fun k => containsChars text k.data)

/-- Modelled from the spec: the textile keyword set of the lexical rule
table (§4.6, §4.5). -/
def textileKeywords : List String :=
  ["shirt", "cotton", "textile", "clothing", "fabric", "apparel"]

/-- Modelled from the spec: the electronics keyword set of the lexical rule
table (§4.6, §4.5). -/
def electronicsKeywords : List String :=
  ["phone", "laptop", "electronic", "battery", "computer", "semiconductor"]

/-- Modelled from the spec: category inference by keyword match against item
name and description, with a generic fallback (§4.6). -/
def inferCategory (q : Query) : ItemCategory :=
  if containsAnyKeyword (queryText q) textileKeywords then .textile
  else if containsAnyKeyword (queryText q) electronicsKeywords then .electronics
  else .generic

/-- Modelled from the spec: a ClarificationQuestion of §3 — identifier,
question text, optional enumerated choices, required flag. -/
structure ClarificationQuestion where
  id : String
  question : String
  options : Option (List String)
  required : Bool

/-- Modelled from the spec: one submitted clarification answer (§6). -/
structure ClarificationAnswer where
  questionId : String
  answer : String

/-- The textile question set of the clarification generator. -/
def textileQuestions : List ClarificationQuestion :=
  [⟨"material_type", "What material is the item primarily made of?",
      some ["Cotton", "Polyester", "Wool", "Mixed"], false⟩,
   ⟨"quantity_detail", "How many units should the analysis cover?", none, false⟩]

/-- The electronics question set of the clarification generator. -/
def electronicsQuestions : List ClarificationQuestion :=
  [⟨"component_focus", "Which component should the analysis focus on?",
      some ["Battery", "Display", "Chipset", "Whole device"], false⟩,
   ⟨"brand", "Which brand or manufacturer should be assumed?", none, false⟩]

/-- The default generic question set of the clarification generator. -/
def genericQuestions : List ClarificationQuestion :=
  [⟨"scope", "What scope should the analysis cover?",
      some ["Single unit", "Batch", "Annual production"], false⟩,
   ⟨"origin", "Is there a known country of origin?", none, false⟩]

/-- Modelled from the spec: the clarification question generator of §4.6, a
pure function from the query's inferred category to an ordered question
list, with a default generic set when no category matches. -/
def clarificationQuestions (q : Query) : List ClarificationQuestion :=
  match inferCategory q with
  | .textile => textileQuestions
  | .electronics => electronicsQuestions
  | .generic => genericQuestions

/-! ## Mock generator (spec §4.5) -/

/-- The fixed per-category placeholder carbon-footprint constant of the mock
generator (the development log records 7 kg for the textile example). -/
def categoryFootprint : ItemCategory → Nat
  | .textile => 7
  | .electronics => 85
  | .generic => 25

/-- The fixed material entries of the mock generator per category, with the
generic unspecified fallback. -/
def mockMaterials : ItemCategory → List Material
  | .textile => [⟨"Cotton", "raw_material", ["India", "United States"], "medium"⟩]
  | .electronics =>
      [⟨"Lithium", "raw_material", ["Chile", "Australia"], "high"⟩,
       ⟨"Silicon", "component", ["Taiwan"], "medium"⟩]
  | .generic => [⟨"unspecified material", "raw_material", [], "unknown"⟩]

/-- The fixed process entries of the mock generator per category. -/
def mockProcesses : ItemCategory → List ProcessStep
  | .textile =>
      [⟨"Spinning", "processing", "India", "grid electricity", "1 kg CO2e"⟩,
       ⟨"Weaving", "manufacturing", "Bangladesh", "grid electricity", "2 kg CO2e"⟩]
  | .electronics =>
      [⟨"Wafer fabrication", "manufacturing", "Taiwan", "grid electricity", "40 kg CO2e"⟩,
       ⟨"Assembly", "assembly", "China", "grid electricity", "10 kg CO2e"⟩]
  | .generic => [⟨"unspecified process", "processing", "unspecified", "unspecified", "unknown"⟩]

/-- The fixed transport entries of the mock generator per category. -/
def mockTransportLegs : ItemCategory → List TransportLeg
  | .textile => [⟨"Bangladesh", "United States", "ship", 13000, "1 kg CO2e"⟩]
  | .electronics => [⟨"China", "United States", "air", 11000, "20 kg CO2e"⟩]
  | .generic => [⟨"unspecified", "unspecified", "ship", 0, "unknown"⟩]

/-- The fixed company entries of the mock generator per category. -/
def mockCompanies : ItemCategory → List Company
  | .textile => [⟨"Generic Textile Mills", "manufacturer", "South Asia"⟩]
  | .electronics => [⟨"Generic Electronics Corp", "manufacturer", "East Asia"⟩]
  | .generic => [⟨"Generic Supplier", "supplier", "unspecified"⟩]

/-- The stage reported as highest impact by the mock generator per category. -/
def mockHighestStage : ItemCategory → String
  | .textile => "manufacturing"
  | .electronics => "manufacturing"
  | .generic => "unspecified"

/-- Modelled from the spec: the Mock Generator of §4.5 — deterministic,
offline, credential-free; fixed generic entries selected by the keyword rule
set on the query, a placeholder footprint from a fixed per-category
constant, and a summary marking the result as non-authoritative. -/
def mockGenerate (q : Query) : AnalysisResult :=
  let c := inferCategory q
  { materials := mockMaterials c
    processes := mockProcesses c
    transportation := mockTransportLegs c
    companies := mockCompanies c
    environmentalImpact :=
      { totalCarbonFootprint := categoryFootprint c
        highestImpactStage := mockHighestStage c
        improvementSuggestions :=
          ["Source renewable energy for manufacturing",
           "Shift long-distance freight to lower-carbon modes"] }
    summary := "Mock (non-authoritative) analysis for " ++ q.itemName }

/-! ## Prompt builder (spec §2) -/

/-- Modelled from the spec: the Prompt Builder — a fixed analysis template
rendered from the query and the clarification answers. -/
def buildPrompt (q : Query) (answers : List ClarificationAnswer) : String :=
  "Analyze the supply chain for: " ++ q.itemName ++
    " (quantity " ++ toString q.quantity ++ "). " ++ q.description ++
    String.join (answers.map (fun a => " " ++ a.questionId ++ ": " ++ a.answer))

/-! ## Response normalizer (spec §4.4) -/

/-- Modelled from the spec: the parse of a provider's raw text that did
parse as JSON — which of the documented top-level keys are present and their
payloads. -/
structure ParsedJson where
  materials : Option (List Material)
  processes : Option (List ProcessStep)
  transportation : Option (List TransportLeg)
  companies : Option (List Company)
  environmentalImpact : Option EnvironmentalImpact
  summary : Option String

/-- Modelled from the spec: a provider's raw text, as the normalizer sees
it — either text that does not parse as JSON at all, or a parsed object. -/
inductive RawText where
  | notJson (text : String)
  | json (obj : ParsedJson)

/-- True when at least one recognizable top-level key is present. -/
def ParsedJson.hasRecognizedKey (j : ParsedJson) : Bool :=
  j.materials.isSome || j.processes.isSome || j.transportation.isSome ||
    j.companies.isSome || j.environmentalImpact.isSome || j.summary.isSome

/-- The impact record used when the key is absent: zero footprint, empty
stage, no suggestions. -/
def defaultImpact : EnvironmentalImpact := ⟨0, "", []⟩

/-- Modelled from the spec: building the AnalysisResult by mapping present
keys and defaulting every absent list to empty and absent text fields to the
empty string (§4.4). -/
def buildResult (j : ParsedJson) : AnalysisResult :=
  { materials := j.materials.getD []
    processes := j.processes.getD []
    transportation := j.transportation.getD []
    companies := j.companies.getD []
    environmentalImpact := j.environmentalImpact.getD defaultImpact
    summary := j.summary.getD "" }

/-- Modelled from the spec: the Response Normalizer of §4.4 — text that does
not parse as JSON yields the sentinel no-result value rather than an
exception; a parsed object with at least one recognizable key is mapped with
defaults; a parsed object with no recognizable key is treated as no result. -/
def normalize : RawText → Option AnalysisResult
  | .notJson _ => none
  | .json j => if j.hasRecognizedKey then some (buildResult j) else none

/-! ## Provider selection and fallback (spec §4.3) -/

/-- Modelled from the spec: the observable outcome of one provider call —
failure (timeout, transport error, non-2xx) or raw assistant text. -/
inductive ProviderResponse where
  | failure
  | success (raw : RawText)

/-- The environment supplying each provider's behaviour on a prompt. -/
def ProviderEnv : Type := Provider → String → ProviderResponse

/-- Modelled from the spec: the iteration of §4.3 over the ordered
usable-provider list — on failure or empty normalization record the attempt
and continue, on the first structurally valid normalized result accept and
stop.  Returns the attempted providers in order and the accepted result, if
any. -/
def runProviders (env : ProviderEnv) (prompt : String) :
    List Provider → List Provider × Option AnalysisResult
  | [] => ([], none)
  | p :: ps =>
    match env p prompt with
    | .failure =>
      let r := runProviders env prompt ps
      (p :: r.1, r.2)
    | .success raw =>
      match normalize raw with
      | some res => ([p], some res)
      | none =>
        let r := runProviders env prompt ps
        (p :: r.1, r.2)

/-- Modelled from the spec: the full provider-selection algorithm of §4.3 —
try the usable providers in order and fall back to the mock generator when
the list is exhausted.  Returns the analysis result and the list of
providers attempted. -/
def runAnalysis (env : ProviderEnv) (creds : Credentials) (q : Query)
    (answers : List ClarificationAnswer) : AnalysisResult × List Provider :=
  let r := runProviders env (buildPrompt q answers) (usableProviders creds)
  match r.2 with
  | some res => (res, r.1)
  | none => (mockGenerate q, r.1)

/-- One provider attempt counts as failed for the fallback when the call
fails or its text normalizes to nothing. -/
def attemptFails (env : ProviderEnv) (prompt : String) (p : Provider) : Prop :=
  match env p prompt with
  | .failure => True
  | .success raw => normalize raw = none

/-! ## Session orchestrator (spec §4.1) -/

/-- Modelled from the spec: the session lifecycle states of §4.1. -/
inductive SessionState where
  | created
  | awaitingClarification
  | analyzing
  | completed
  | failed
  deriving DecidableEq

/-- Modelled from the spec: the client-error taxonomy of §7.  There is no
analysis-failure member: provider failures are absorbed by the fallback. -/
inductive ApiError where
  | invalidQuery
  | unknownSession
  | invalidState
  | resultNotReady
  deriving DecidableEq

/-- Modelled from the spec: a Session record of §3 — the original query, the
lifecycle state, the pending questions, the submitted answers, the
per-session credential overrides and the cached result. -/
structure Session where
  query : Query
  state : SessionState
  clarifications : List ClarificationQuestion
  answers : List ClarificationAnswer
  overrides : Provider → Option String
  result : Option AnalysisResult

/-- Modelled from the spec: the orchestrator's in-memory state — the
process-wide default credentials and the live sessions keyed by id. -/
structure Orchestrator where
  defaults : Provider → Option String
  sessions : List (String × Session)

/-- Lookup of a live session by id. -/
def lookupSess : List (String × Session) → String → Option Session
  | [], _ => none
  | (k, s) :: rest, sid => if k = sid then some s else lookupSess rest sid

/-- Replacement of a live session's record, keyed by id. -/
def updateSess : List (String × Session) → String → Session → List (String × Session)
  | [], _, _ => []
  | (k, s) :: rest, sid, s1 =>
    if k = sid then (k, s1) :: rest else (k, s) :: updateSess rest sid s1

/-- The session credentials seen by the resolver: process-wide defaults plus
the session's overrides. -/
def sessionCreds (o : Orchestrator) (s : Session) : Credentials :=
  ⟨o.defaults, s.overrides⟩

/-- Modelled from the spec: the start operation of §4.1 — fails with
InvalidQuery when the item name is empty, otherwise creates a session in
awaiting_clarification under the fresh id supplied by the caller and returns
the generated clarification questions. -/
def startAnalysis (o : Orchestrator) (sid : String) (q : Query) :
    Except ApiError (Orchestrator × List ClarificationQuestion) :=
  if q.itemName = "" then .error .invalidQuery
  else
    let qs := clarificationQuestions q
    let s : Session :=
      { query := q, state := .awaitingClarification, clarifications := qs,
        answers := [], overrides := fun _ => none, result := none }
    .ok ({ o with sessions := (sid, s) :: o.sessions }, qs)

/-- Modelled from the spec: the setCredentials operation of §4.1 — merges
the supplied keys into the session's overrides and returns which providers
are now usable. -/
def setCredentials (o : Orchestrator) (sid : String) (keys : Provider → Option String) :
    Except ApiError (Orchestrator × (Provider → Bool)) :=
  match lookupSess o.sessions sid with
  | none => .error .unknownSession
  | some s =>
    let s1 := { s with overrides := mergeOverrides s.overrides keys }
    .ok ({ o with sessions := updateSess o.sessions sid s1 },
      servicesAvailable (sessionCreds o s1))

/-- Modelled from the spec: the submitClarifications operation of §4.1 —
UnknownSession when the id is not live, InvalidState outside
awaiting_clarification; otherwise the session transitions to analyzing, the
provider-selection algorithm runs synchronously, the result is stored and
the session transitions to completed. -/
def submitClarifications (env : ProviderEnv) (o : Orchestrator) (sid : String)
    (answers : List ClarificationAnswer) : Except ApiError Orchestrator :=
  match lookupSess o.sessions sid with
  | none => .error .unknownSession
  | some s =>
    match s.state with
    | .awaitingClarification =>
      let analyzingS := { s with state := .analyzing, answers := answers }
      let r := runAnalysis env (sessionCreds o analyzingS) s.query answers
      let doneS := { analyzingS with state := .completed, result := some r.1 }
      .ok { o with sessions := updateSess o.sessions sid doneS }
    | _ => .error .invalidState

/-- Modelled from the spec: the getResult operation of §4.1 — UnknownSession
when the id is not live, ResultNotReady before completion, otherwise the
stored result wrapped with the session id and the clarifications used. -/
def getResult (o : Orchestrator) (sid : String) :
    Except ApiError (String × List ClarificationAnswer × AnalysisResult) :=
  match lookupSess o.sessions sid with
  | none => .error .unknownSession
  | some s =>
    match s.state, s.result with
    | .completed, some r => .ok (sid, s.answers, r)
    | _, _ => .error .resultNotReady

/-! ## Supporting lemmas about the orchestration model -/

theorem structurallyComplete_of (r : AnalysisResult) : structurallyComplete r := by
  intro k hk
  simp only [requiredKeys, List.mem_cons, List.not_mem_nil, or_false] at hk
  rcases hk with rfl | rfl | rfl | rfl | rfl | rfl <;> simp [encodeResult, List.lookup]

theorem clarificationQuestions_ne_nil (q : Query) : clarificationQuestions q ≠ [] := by
  unfold clarificationQuestions
  cases inferCategory q <;> simp [textileQuestions, electronicsQuestions, genericQuestions]

theorem lookupSess_update (l : List (String × Session)) (sid : String) (s s1 : Session)
    (h : lookupSess l sid = some s) :
    lookupSess (updateSess l sid s1) sid = some s1 := by
  induction l with
  | nil => simp [lookupSess] at h
  | cons kv rest ih =>
    obtain ⟨k, v⟩ := kv
    by_cases hk : k = sid
    · simp [lookupSess, updateSess, hk]
    · rw [lookupSess] at h
      rw [if_neg hk] at h
      simp only [updateSess, if_neg hk, lookupSess]
      exact ih h

theorem runProviders_fst_sublist (env : ProviderEnv) (prompt : String) (l : List Provider) :
    (runProviders env prompt l).1.Sublist l := by
  induction l with
  | nil => simp [runProviders]
  | cons p ps ih =>
    unfold runProviders
    cases env p prompt with
    | failure =>
      dsimp only
      exact ih.cons₂ p
    | success raw =>
      dsimp only
      cases normalize raw with
      | some res =>
        dsimp only
        exact (List.nil_sublist ps).cons₂ p
      | none =>
        dsimp only
        exact ih.cons₂ p

theorem runProviders_none_of_all_fail (env : ProviderEnv) (prompt : String)
    (l : List Provider) (h : ∀ p ∈ l, attemptFails env prompt p) :
    (runProviders env prompt l).2 = none := by
  induction l with
  | nil => rfl
  | cons p ps ih =>
    have hp := h p (List.mem_cons_self p ps)
    have hps : ∀ x ∈ ps, attemptFails env prompt x :=
      fun x hx => h x (List.mem_cons_of_mem _ hx)
    unfold runProviders
    unfold attemptFails at hp
    cases henv : env p prompt with
    | failure =>
      dsimp only
      exact ih hps
    | success raw =>
      rw [henv] at hp
      dsimp only
      rw [hp]
      dsimp only
      exact ih hps

theorem runProviders_first_accept (env : ProviderEnv) (prompt : String)
    (ps₁ : List Provider) (p : Provider) (ps₂ : List Provider) (raw : RawText)
    (r : AnalysisResult)
    (hfail : ∀ x ∈ ps₁, attemptFails env prompt x)
    (henv : env p prompt = .success raw) (hnorm : normalize raw = some r) :
    runProviders env prompt (ps₁ ++ p :: ps₂) = (ps₁ ++ [p], some r) := by
  induction ps₁ with
  | nil =>
    simp only [List.nil_append]
    unfold runProviders
    rw [henv]
    dsimp only
    rw [hnorm]
  | cons x xs ih =>
    have hx := hfail x (List.mem_cons_self x xs)
    have hxs : ∀ y ∈ xs, attemptFails env prompt y :=
      fun y hy => hfail y (List.mem_cons_of_mem _ hy)
    have ihx := ih hxs
    simp only [List.cons_append]
    unfold runProviders
    unfold attemptFails at hx
    cases hex : env x prompt with
    | failure =>
      dsimp only
      rw [ihx]
    | success rawx =>
      rw [hex] at hx
      dsimp only at hx ⊢
      rw [hx]
      dsimp only
      rw [ihx]

theorem runAnalysis_snd_eq (env : ProviderEnv) (creds : Credentials) (q : Query)
    (answers : List ClarificationAnswer) :
    (runAnalysis env creds q answers).2 =
      (runProviders env (buildPrompt q answers) (usableProviders creds)).1 := by
  unfold runAnalysis
  dsimp only
  cases (runProviders env (buildPrompt q answers) (usableProviders creds)).2
  all_goals rfl

theorem usableProviders_nodup (creds : Credentials) : (usableProviders creds).Nodup := by
  apply List.Nodup.filter
  decide

theorem providerUsable_false_of (creds : Credentials) (p : Provider)
    (h : resolveCredential creds p = none ∨ resolveCredential creds p = some "") :
    providerUsable creds p = false := by
  unfold providerUsable
  rcases h with h | h
  all_goals rw [h]
  all_goals rfl

/-! ## Witness fixtures -/

/-- A live session awaiting clarification, with no overrides and no result. -/
def witnessSession : Session :=
  { query := ⟨"pen", "", 1⟩, state := .awaitingClarification, clarifications := [],
    answers := [], overrides := fun _ => none, result := none }

/-- An orchestrator with no process-wide credentials holding the one live
session under id s1. -/
def witnessOrch : Orchestrator :=
  { defaults := fun _ => none, sessions := [("s1", witnessSession)] }

/-- A caller-supplied key map carrying only an OpenAI key. -/
def onlyOpenAIKeys : Provider → Option String
  | .openai => some "sk-test"
  | .anthropic => none

/-- The analysis result computed during a clarification submission, with the
session in its transient analyzing state. -/
def analysisFor (env : ProviderEnv) (o : Orchestrator) (s : Session)
    (answers : List ClarificationAnswer) : AnalysisResult :=
  (runAnalysis env (sessionCreds o { s with state := .analyzing, answers := answers })
    s.query answers).1

/-- The session record after a successful clarification submission: the
session passed through analyzing and ended completed with the analysis
result stored. -/
def completedSession (env : ProviderEnv) (o : Orchestrator) (s : Session)
    (answers : List ClarificationAnswer) : Session :=
  { s with
      state := .completed
      answers := answers
      result := some (analysisFor env o s answers) }

/-- The orchestrator state after a successful clarification submission. -/
def submittedOrch (env : ProviderEnv) (o : Orchestrator) (sid : String) (s : Session)
    (answers : List ClarificationAnswer) : Orchestrator :=
  { o with sessions := updateSess o.sessions sid (completedSession env o s answers) }

/-- The session record after merging the OpenAI-only key map. -/
def credSession (s : Session) : Session :=
  { s with overrides := mergeOverrides s.overrides onlyOpenAIKeys }

/-- The orchestrator state after merging the OpenAI-only key map into one
session. -/
def credOrch (o : Orchestrator) (sid : String) (s : Session) : Orchestrator :=
  { o with sessions := updateSess o.sessions sid (credSession s) }

/-- The session record created by a successful start call. -/
def startedSession (q : Query) : Session :=
  { query := q, state := .awaitingClarification,
    clarifications := clarificationQuestions q, answers := [],
    overrides := fun _ => none, result := none }

/-- The orchestrator state after a successful start call. -/
def startedOrch (o : Orchestrator) (sid : String) (q : Query) : Orchestrator :=
  { o with sessions := (sid, startedSession q) :: o.sessions }

/-! ## Claim theorems for the orchestration engine -/

/-- C1: whenever the usable-provider list is exhausted — vacuously when no
provider is usable, or because every usable provider failed or normalized to
nothing — the analysis falls back to the mock generator's output, and
submitting clarifications on a live session awaiting clarification always
succeeds, so no analysis-failed outcome is ever visible to the caller. -/
theorem provider_exhaustion_invokes_mock (env : ProviderEnv) (creds : Credentials)
    (q : Query) (answers : List ClarificationAnswer) :
    ((∀ p ∈ usableProviders creds, attemptFails env (buildPrompt q answers) p) →
      (runAnalysis env creds q answers).1 = mockGenerate q) ∧
    (∀ (o : Orchestrator) (sid : String) (s : Session),
      lookupSess o.sessions sid = some s → s.state = .awaitingClarification →
      ∃ o', submitClarifications env o sid answers = .ok o') := by
  constructor
  · intro h
    have h2 := runProviders_none_of_all_fail env (buildPrompt q answers) _ h
    unfold runAnalysis
    dsimp only
    rw [h2]
  · intro o sid s hs hstate
    refine ⟨submittedOrch env o sid s answers, ?_⟩
    unfold submitClarifications
    rw [hs]
    dsimp only
    rw [hstate]
    rfl

/-- Witness for C1: with an all-failing environment and only default
credentials, the result is the mock output, and the live witness session
submits successfully. -/
theorem provider_exhaustion_invokes_mock_witness :
    (runAnalysis (fun _ _ => .failure) ⟨fun _ => some "k", fun _ => none⟩
        ⟨"pen", "", 1⟩ []).1 = mockGenerate ⟨"pen", "", 1⟩ ∧
    ∃ o', submitClarifications (fun _ _ => .failure) witnessOrch "s1" [] = .ok o' :=
  ⟨(provider_exhaustion_invokes_mock (fun _ _ => .failure)
      ⟨fun _ => some "k", fun _ => none⟩ ⟨"pen", "", 1⟩ []).1 (fun _ _ => trivial),
   (provider_exhaustion_invokes_mock (fun _ _ => .failure)
      ⟨fun _ => some "k", fun _ => none⟩ ⟨"pen", "", 1⟩ []).2
      witnessOrch "s1" witnessSession rfl rfl⟩

/-- C2: every AnalysisResult produced by any path — provider normalization,
degraded parsing of partial data, or mock generation — is structurally
complete, its serialized form carrying all six documented keys; a parsed
object with at least one recognizable key always normalizes, absent lists
defaulting to empty and absent text to the empty string. -/
theorem analysisResult_always_structurally_complete :
    (∀ (env : ProviderEnv) (creds : Credentials) (q : Query)
      (answers : List ClarificationAnswer),
      structurallyComplete (runAnalysis env creds q answers).1) ∧
    (∀ j : ParsedJson, j.hasRecognizedKey = true →
      normalize (.json j) = some (buildResult j)) ∧
    (∀ q : Query, structurallyComplete (mockGenerate q)) := by
  refine ⟨fun env creds q answers => structurallyComplete_of _, fun j hj => ?_,
    fun q => structurallyComplete_of _⟩
  unfold normalize
  dsimp only
  rw [if_pos hj]

/-- Witness for C2: a parse carrying only the summary key normalizes with
defaults, and the mock output for a concrete query is complete. -/
theorem analysisResult_always_structurally_complete_witness :
    normalize (.json ⟨none, none, none, none, none, some "partial"⟩) =
      some (buildResult ⟨none, none, none, none, none, some "partial"⟩) ∧
    structurallyComplete (mockGenerate ⟨"pen", "", 1⟩) :=
  ⟨analysisResult_always_structurally_complete.2.1 _ rfl,
   analysisResult_always_structurally_complete.2.2 ⟨"pen", "", 1⟩⟩

/-- C3: submitting clarifications once on a live session awaiting
clarification succeeds, the session ends completed with the analysis result
stored, and getResult thereafter returns that structurally complete result,
for every provider environment and credential configuration. -/
theorem submitClarifications_transitions_to_completed (env : ProviderEnv)
    (o : Orchestrator) (sid : String) (s : Session) (answers : List ClarificationAnswer)
    (hs : lookupSess o.sessions sid = some s)
    (hstate : s.state = .awaitingClarification) :
    ∃ o' r, submitClarifications env o sid answers = .ok o' ∧
      (∃ s', lookupSess o'.sessions sid = some s' ∧ s'.state = .completed ∧
        s'.result = some r) ∧
      getResult o' sid = .ok (sid, answers, r) ∧
      structurallyComplete r := by
  have hlook := lookupSess_update o.sessions sid s (completedSession env o s answers) hs
  refine ⟨submittedOrch env o sid s answers, analysisFor env o s answers,
    ?_, ⟨completedSession env o s answers, hlook, rfl, rfl⟩, ?_, structurallyComplete_of _⟩
  · unfold submitClarifications
    rw [hs]
    dsimp only
    rw [hstate]
    rfl
  · unfold getResult submittedOrch
    dsimp only
    rw [hlook]
    rfl

/-- Witness for C3: the live witness session completes on an all-failing
environment. -/
theorem submitClarifications_transitions_to_completed_witness :
    ∃ o' r, submitClarifications (fun _ _ => .failure) witnessOrch "s1" [] = .ok o' ∧
      (∃ s', lookupSess o'.sessions "s1" = some s' ∧ s'.state = .completed ∧
        s'.result = some r) ∧
      getResult o' "s1" = .ok ("s1", [], r) ∧
      structurallyComplete r :=
  submitClarifications_transitions_to_completed (fun _ _ => .failure) witnessOrch "s1"
    witnessSession [] rfl rfl

/-- C4: start fails with InvalidQuery exactly when the item name is empty;
for every non-empty item name it creates a session in awaiting_clarification
holding the generated clarification questions, and that question list is
never empty. -/
theorem startAnalysis_behaviour (o : Orchestrator) (sid : String) (q : Query) :
    (q.itemName = "" → startAnalysis o sid q = .error .invalidQuery) ∧
    (q.itemName ≠ "" →
      ∃ o', startAnalysis o sid q = .ok (o', clarificationQuestions q) ∧
        clarificationQuestions q ≠ [] ∧
        ∃ s, lookupSess o'.sessions sid = some s ∧
          s.state = .awaitingClarification ∧
          s.clarifications = clarificationQuestions q) := by
  constructor
  · intro h
    unfold startAnalysis
    rw [if_pos h]
  · intro h
    refine ⟨startedOrch o sid q, ?_, clarificationQuestions_ne_nil q,
      ⟨startedSession q, ?_, rfl, rfl⟩⟩
    · unfold startAnalysis
      rw [if_neg h]
      rfl
    · unfold startedOrch
      dsimp only
      unfold lookupSess
      rw [if_pos rfl]

/-- Witness for C4: the empty item name is rejected and a concrete product
name starts a session with a non-empty question list. -/
theorem startAnalysis_behaviour_witness :
    startAnalysis witnessOrch "s2" ⟨"", "", 1⟩ = .error .invalidQuery ∧
    ∃ o', startAnalysis witnessOrch "s2" ⟨"Cotton T-shirt", "", 1⟩ =
        .ok (o', clarificationQuestions ⟨"Cotton T-shirt", "", 1⟩) ∧
      clarificationQuestions ⟨"Cotton T-shirt", "", 1⟩ ≠ [] ∧
      ∃ s, lookupSess o'.sessions "s2" = some s ∧
        s.state = .awaitingClarification ∧
        s.clarifications = clarificationQuestions ⟨"Cotton T-shirt", "", 1⟩ :=
  ⟨(startAnalysis_behaviour witnessOrch "s2" ⟨"", "", 1⟩).1 rfl,
   (startAnalysis_behaviour witnessOrch "s2" ⟨"Cotton T-shirt", "", 1⟩).2 (by decide)⟩

/-- C5: a provider is usable iff a non-empty credential string resolves for
it, session overrides taking precedence over process-wide defaults; in
particular, setting only an OpenAI key on a session with no defaults makes
OpenAI available and leaves Anthropic unavailable. -/
theorem credential_usability :
    (∀ (c : Credentials) (p : Provider),
      (providerUsable c p = true ↔ ∃ s, resolveCredential c p = some s ∧ s ≠ "") ∧
      (∀ s, c.overrides p = some s → resolveCredential c p = some s) ∧
      (c.overrides p = none → resolveCredential c p = c.defaults p)) ∧
    (∀ (o : Orchestrator) (sid : String) (s : Session),
      o.defaults = (fun _ => none) → s.overrides = (fun _ => none) →
      lookupSess o.sessions sid = some s →
      ∃ o' avail, setCredentials o sid onlyOpenAIKeys = .ok (o', avail) ∧
        avail .openai = true ∧ avail .anthropic = false) := by
  constructor
  · intro c p
    refine ⟨⟨?_, ?_⟩, ?_, ?_⟩
    · intro h
      unfold providerUsable at h
      cases hr : resolveCredential c p with
      | none => rw [hr] at h; simp at h
      | some str =>
        rw [hr] at h
        refine ⟨str, rfl, ?_⟩
        simpa using h
    · rintro ⟨str, hr, hne⟩
      unfold providerUsable
      rw [hr]
      simpa using hne
    · intro str hov
      unfold resolveCredential
      rw [hov]
    · intro hov
      unfold resolveCredential
      rw [hov]
  · intro o sid s hdef hov hs
    have hset : setCredentials o sid onlyOpenAIKeys =
        .ok (credOrch o sid s, servicesAvailable (sessionCreds o (credSession s))) := by
      unfold setCredentials
      rw [hs]
      rfl
    refine ⟨credOrch o sid s, servicesAvailable (sessionCreds o (credSession s)),
      hset, ?_, ?_⟩
    · rfl
    · have h1 : mergeOverrides s.overrides onlyOpenAIKeys Provider.anthropic = none := by
        unfold mergeOverrides onlyOpenAIKeys
        dsimp only
        rw [congrFun hov Provider.anthropic]
      show servicesAvailable (sessionCreds o (credSession s)) Provider.anthropic = false
      unfold servicesAvailable providerUsable resolveCredential sessionCreds credSession
      dsimp only
      rw [h1]
      dsimp only
      rw [congrFun hdef Provider.anthropic]

/-- Witness for C5: the concrete session of the fixture gains exactly OpenAI
availability from the OpenAI-only key map. -/
theorem credential_usability_witness :
    ∃ o' avail, setCredentials witnessOrch "s1" onlyOpenAIKeys = .ok (o', avail) ∧
      avail .openai = true ∧ avail .anthropic = false :=
  credential_usability.2 witnessOrch "s1" witnessSession rfl rfl rfl

/-- C6: text that does not parse as JSON normalizes to the sentinel
no-result value rather than an exception, and a first usable provider
returning such text makes the analysis fall through to the remaining
providers or, failing those, the mock generator — never an API-level
error. -/
theorem malformed_json_triggers_fallback :
    (∀ t : String, normalize (.notJson t) = none) ∧
    (∀ (env : ProviderEnv) (creds : Credentials) (q : Query)
      (answers : List ClarificationAnswer) (t : String) (p : Provider)
      (ps : List Provider),
      usableProviders creds = p :: ps →
      env p (buildPrompt q answers) = .success (.notJson t) →
      (runAnalysis env creds q answers).1 =
        (match (runProviders env (buildPrompt q answers) ps).2 with
          | some r => r
          | none => mockGenerate q)) := by
  constructor
  · intro t
    rfl
  · intro env creds q answers t p ps hu henv
    have hstep : runProviders env (buildPrompt q answers) (p :: ps) =
        (p :: (runProviders env (buildPrompt q answers) ps).1,
          (runProviders env (buildPrompt q answers) ps).2) := by
      simp only [runProviders]
      rw [henv]
      dsimp only
      rw [show normalize (RawText.notJson t) = none from rfl]
    unfold runAnalysis
    dsimp only
    rw [hu, hstep]
    dsimp only
    cases (runProviders env (buildPrompt q answers) ps).2 <;> rfl

/-- Witness for C6: a malformed first response on a two-provider
configuration falls through to the second attempt. -/
theorem malformed_json_triggers_fallback_witness :
    (runAnalysis (fun _ _ => .success (.notJson "oops"))
        ⟨fun _ => some "k", fun _ => none⟩ ⟨"pen", "", 1⟩ []).1 =
      (match (runProviders (fun _ _ => .success (.notJson "oops"))
          (buildPrompt ⟨"pen", "", 1⟩ []) [Provider.anthropic]).2 with
        | some r => r
        | none => mockGenerate ⟨"pen", "", 1⟩) :=
  malformed_json_triggers_fallback.2 _ _ _ _ "oops" Provider.openai
    [Provider.anthropic] rfl rfl

/-- C7: the mock generator is a deterministic total function of the query —
identical queries give identical output — its result is structurally
complete, and with no resolvable credential for any provider the analysis
result equals the mock output for that query. -/
theorem mock_generator_deterministic (q : Query) :
    (∀ q2 : Query, q = q2 → mockGenerate q = mockGenerate q2) ∧
    structurallyComplete (mockGenerate q) ∧
    (∀ (env : ProviderEnv) (creds : Credentials) (answers : List ClarificationAnswer),
      (∀ p, resolveCredential creds p = none ∨ resolveCredential creds p = some "") →
      (runAnalysis env creds q answers).1 = mockGenerate q) := by
  refine ⟨fun q2 h => congrArg mockGenerate h, structurallyComplete_of _, ?_⟩
  intro env creds answers h
  have h1 : providerUsable creds .openai = false := providerUsable_false_of _ _ (h _)
  have h2 : providerUsable creds .anthropic = false := providerUsable_false_of _ _ (h _)
  have hu : usableProviders creds = [] := by
    unfold usableProviders providerOrder
    simp [List.filter, h1, h2]
  unfold runAnalysis
  dsimp only
  rw [hu]
  rfl

/-- Witness for C7: with no credentials at all, a concrete query's analysis
equals the mock output. -/
theorem mock_generator_deterministic_witness :
    (runAnalysis (fun _ _ => .failure) ⟨fun _ => none, fun _ => none⟩
        ⟨"pen", "", 1⟩ []).1 = mockGenerate ⟨"pen", "", 1⟩ :=
  (mock_generator_deterministic ⟨"pen", "", 1⟩).2.2 _ _ _ (fun _ => Or.inl rfl)

/-- C8: in every run of the provider-selection algorithm the attempted
providers form a duplicate-free list no longer than the usable-provider
list — no provider is retried — and the first provider whose text
normalizes to a valid result is accepted and stops the iteration, so at
most one result is accepted. -/
theorem provider_selection_attempts (env : ProviderEnv) (creds : Credentials)
    (q : Query) (answers : List ClarificationAnswer) :
    (runAnalysis env creds q answers).2.length ≤ (usableProviders creds).length ∧
    (runAnalysis env creds q answers).2.Nodup ∧
    (∀ (ps₁ : List Provider) (p : Provider) (ps₂ : List Provider) (raw : RawText)
      (r : AnalysisResult),
      usableProviders creds = ps₁ ++ p :: ps₂ →
      (∀ x ∈ ps₁, attemptFails env (buildPrompt q answers) x) →
      env p (buildPrompt q answers) = .success raw →
      normalize raw = some r →
      runAnalysis env creds q answers = (r, ps₁ ++ [p])) := by
  have hsub := runProviders_fst_sublist env (buildPrompt q answers) (usableProviders creds)
  have hsnd := runAnalysis_snd_eq env creds q answers
  refine ⟨?_, ?_, ?_⟩
  · rw [hsnd]
    exact hsub.length_le
  · rw [hsnd]
    exact List.Nodup.sublist hsub (usableProviders_nodup creds)
  · intro ps₁ p ps₂ raw r hu hfail henv hnorm
    have hrun := runProviders_first_accept env (buildPrompt q answers) ps₁ p ps₂ raw r
      hfail henv hnorm
    unfold runAnalysis
    dsimp only
    rw [hu, hrun]

/-- Witness for C8: a first-provider success is accepted after zero failed
attempts and the iteration stops with the single attempt recorded. -/
theorem provider_selection_attempts_witness :
    runAnalysis (fun _ _ => .success (.json ⟨none, none, none, none, none, some "s"⟩))
        ⟨fun _ => some "k", fun _ => none⟩ ⟨"pen", "", 1⟩ [] =
      (buildResult ⟨none, none, none, none, none, some "s"⟩, [Provider.openai]) :=
  (provider_selection_attempts _ _ _ _).2.2 [] Provider.openai [Provider.anthropic] _ _
    rfl (fun x hx => absurd hx (List.not_mem_nil x)) rfl rfl

end Implodesc
